import Mathlib

/-!
Shallow embedding of the card-validation backend (`src/index.py`) and proofs
about it.  Strings are modelled as `List Char` (ASCII fragment of Python's
`str`), Python `int` as `ℤ`/`ℕ`, `time.time()` values as `ℚ`, exceptions as
`Option`/`Except`, and `random.randint` draws as explicit oracle arguments.
-/

set_option autoImplicit false

/-- ASCII decimal digit test ('0'..'9'); model of the character class used by
Python's `int(c)` on a single character and of `str.isdigit` / regex `\d`
restricted to ASCII. -/
def isDig (c : Char) : Bool :=
  decide (48 ≤ c.toNat) && decide (c.toNat ≤ 57)

/-- Value of a single character under Python `int(c)`: `some` digit value for
'0'..'9', `none` (a raised `ValueError`) otherwise. -/
def int? (c : Char) : Option ℕ :=
  if isDig c then some (c.toNat - 48) else none

/-- `str(d)` for a single digit value `d ≤ 9`. -/
def digitChar (n : ℕ) : Char :=
  Char.ofNat (48 + n)

/-- One step of the Luhn accumulation at index `i` with digit `d` (lines 44-50
of `src/index.py`): double the digit and subtract 9 when the index parity
matches `parity`. -/
def luhnStep (parity i d : ℕ) : ℕ :=
  if i % 2 = parity then (if 9 < 2 * d then 2 * d - 9 else 2 * d) else d

/-- The loop of `luhn_check` (and, with `parity = 0`, the check-digit loop of
`generate_cards`): total of the Luhn-weighted digit values of the characters,
starting at index `i`; `none` models the `ValueError` raised by `int(digit)`
on a non-digit character. -/
def luhnTotal? (parity i : ℕ) : List Char → Option ℕ
  | [] => some 0
  | c :: rest =>
    match int? c with
    | none => none
    | some d =>
      match luhnTotal? parity (i + 1) rest with
      | none => none
      | some t => some (luhnStep parity i d + t)

/-- `luhn_check` from `src/index.py` lines 37-54: parity is the string length
mod 2; any exception (non-digit character) is swallowed and yields `false`. -/
def luhn_check (card_number : List Char) : Bool :=
  match luhnTotal? (card_number.length % 2) 0 card_number with
  | none => false
  | some total => total % 10 == 0

/-- The six ASCII whitespace characters stripped by Python's `str.strip()`. -/
def isPySpace (c : Char) : Bool :=
  c == ' ' || c == '\t' || c == '\n' || c == '\x0d' || c == '\x0b' || c == '\x0c'

/-- Python `str.strip()` (ASCII whitespace). -/
def pyStrip (s : List Char) : List Char :=
  ((s.dropWhile isPySpace).reverse.dropWhile isPySpace).reverse

/-- Python `str.split(sep)` for a one-character separator: always returns at
least one (possibly empty) segment. -/
def pySplit (sep : Char) : List Char → List (List Char)
  | [] => [[]]
  | c :: rest =>
    if c = sep then [] :: pySplit sep rest
    else
      match pySplit sep rest with
      | [] => [[c]]
      | seg :: segs => (c :: seg) :: segs

/-- Python `str.zfill(w)`: left-pad with '0' to width `w`, inserting the
padding after a leading '+' or '-' sign. -/
def zfill (w : ℕ) (s : List Char) : List Char :=
  if w ≤ s.length then s
  else
    match s with
    | [] => List.replicate w '0'
    | c :: rest =>
      if c = '+' ∨ c = '-' then c :: (List.replicate (w - s.length) '0' ++ rest)
      else List.replicate (w - s.length) '0' ++ s

/-- Digit accumulation of Python `int(str)` after the first digit: decimal
digits with single underscores allowed between digits. -/
def pyIntLoop (acc : ℕ) : List Char → Option ℕ
  | [] => some acc
  | c :: rest =>
    if c = '_' then
      match rest with
      | [] => none
      | c2 :: rest2 =>
        match int? c2 with
        | none => none
        | some d => pyIntLoop (acc * 10 + d) rest2
    else
      match int? c with
      | none => none
      | some d => pyIntLoop (acc * 10 + d) rest

/-- The unsigned-number part of Python `int(str)`: one digit followed by
digits and single internal underscores. -/
def pyIntDigits? : List Char → Option ℕ
  | [] => none
  | c :: rest =>
    match int? c with
    | none => none
    | some d => pyIntLoop d rest

/-- Python `int(str)` on the ASCII fragment: strip outer whitespace, optional
single sign, then digits with single internal underscores; `none` models the
raised `ValueError`. -/
def pyInt? (s : List Char) : Option ℤ :=
  match pyStrip s with
  | '+' :: rest => (pyIntDigits? rest).map (fun n => (n : ℤ))
  | '-' :: rest => (pyIntDigits? rest).map (fun n => -(n : ℤ))
  | t => (pyIntDigits? t).map (fun n => (n : ℤ))

/-- The validated-card dictionary built by `validate_card_format`
(lines 95-101 of `src/index.py`). -/
structure CardRecord where
  card_number : List Char
  month : List Char
  year : List Char
  cvv : List Char
  original : List Char
deriving DecidableEq, Repr

deriving instance DecidableEq for Except

/-- Body of `validate_card_format` after the segment split (lines 63-101 of
`src/index.py`), acting on the first four stripped segments; `current_year`
models `datetime.now().year`. -/
def validate_fields (current_year : ℕ) (p0 p1 p2 p3 original : List Char) :
    Except String CardRecord :=
  let card_number := p0.filter isDig
  let month := zfill 2 p1
  if card_number.length < 13 ∨ 19 < card_number.length then
    .error "Invalid card number length"
  else
    match pyInt? month with
    | none => .error "Invalid month format"
    | some month_int =>
      if month_int < 1 ∨ 12 < month_int then .error "Invalid month"
      else
        let year := if p2.length = 2 then '2' :: '0' :: p2 else p2
        match pyInt? year with
        | none => .error "Invalid year format"
        | some year_int =>
          if year_int < (current_year : ℤ) ∨ year.length ≠ 4 then
            .error "Invalid or expired year"
          else if p3.length < 3 ∨ 4 < p3.length ∨ ¬p3.all isDig then
            .error "Invalid CVV"
          else
            .ok { card_number := card_number, month := month, year := year,
                  cvv := p3, original := original }

/-- `validate_card_format` from `src/index.py` lines 56-101: split the raw
string on '|', strip every segment, and validate the first four. -/
def validate_card_format (current_year : ℕ) (card_data : List Char) :
    Except String CardRecord :=
  match (pySplit '|' card_data).map pyStrip with
  | p0 :: p1 :: p2 :: p3 :: _ => validate_fields current_year p0 p1 p2 p3 card_data
  | _ => .error "Invalid format"

/-- One entry of the JSON response of the validate endpoints. -/
structure ValidationResult where
  status : String
  message : String
  original : List Char
deriving DecidableEq, Repr

/-- Classification of one raw card string, shared by `validate_card` (lines
121-137) and the loop body of `validate_batch` (lines 158-173). -/
def classify (current_year : ℕ) (card_data : List Char) : ValidationResult :=
  match validate_card_format current_year card_data with
  | .error e => { status := "unknown", message := e, original := card_data }
  | .ok validated =>
    if luhn_check validated.card_number then
      { status := "live", message := "Valid card", original := card_data }
    else
      { status := "dead", message := "Invalid card", original := card_data }

/-- Body of `validate_batch` after the rate-limit gate (lines 150-175 of
`src/index.py`): batch-size guard, then per-card classification in order. -/
def validate_batch_body (current_year : ℕ) (cards : List (List Char)) :
    Except String (List ValidationResult) :=
  if cards = [] ∨ 100 < cards.length then .error "Invalid batch size (max 100)"
  else .ok (cards.map (classify current_year))

/-- `RATE_LIMIT` from `src/index.py` line 21. -/
def RATE_LIMIT : ℕ := 100

/-- `RATE_WINDOW` (seconds) from `src/index.py` line 22. -/
def RATE_WINDOW : ℚ := 3600

/-- `check_rate_limit` for a single client key, `src/index.py` lines 24-35:
given the stored timestamp list and the current time, returns the new stored
list and the admit decision.  `time.time()` values are modelled as `ℚ`. -/
def check_rate_limit (times : List ℚ) (now : ℚ) : List ℚ × Bool :=
  let pruned := times.filter (fun req_time => decide (now - req_time < RATE_WINDOW))
  if RATE_LIMIT ≤ pruned.length then (pruned, false)
  else (pruned ++ [now], true)

/-- A sequence of `check_rate_limit` calls for one key at the given times,
returning the final stored list and the decision of each call in order. -/
def runCalls (times : List ℚ) : List ℚ → List ℚ × List Bool
  | [] => (times, [])
  | now :: rest =>
    let step := check_rate_limit times now
    let tail := runCalls step.1 rest
    (tail.1, step.2 :: tail.2)

/-- Abstract response of a route handler (status codes 429/400/200). -/
inductive Resp
  | rateLimited
  | badRequest (msg : String)
  | okSingle (r : ValidationResult)
  | okBatch (rs : List ValidationResult)
  | okGenerated (cards : List (List Char))
deriving DecidableEq

/-- The `/api/validate` handler (lines 103-137 of `src/index.py`) for one
client key: rate-limit gate, empty-body guard, then classification.  Returns
the new rate-limit state for the key together with the response. -/
def validate_card_route (times : List ℚ) (now : ℚ) (current_year : ℕ)
    (card : List Char) : List ℚ × Resp :=
  let gate := check_rate_limit times now
  if gate.2 then
    if card = [] then (gate.1, .badRequest "No card data provided")
    else (gate.1, .okSingle (classify current_year card))
  else (gate.1, .rateLimited)

/-- The `/api/validate-batch` handler (lines 139-175 of `src/index.py`) for
one client key. -/
def validate_batch_route (times : List ℚ) (now : ℚ) (current_year : ℕ)
    (cards : List (List Char)) : List ℚ × Resp :=
  let gate := check_rate_limit times now
  if gate.2 then
    match validate_batch_body current_year cards with
    | .error e => (gate.1, .badRequest e)
    | .ok rs => (gate.1, .okBatch rs)
  else (gate.1, .rateLimited)

/-- One record produced per iteration of the `generate_cards` loop, before
being joined as `"{number}|{month}|{year}|{cvv}"`. -/
structure GenRecord where
  number : List Char
  month : List Char
  year : List Char
  cvv : List Char
deriving DecidableEq, Repr

/-- The failure modes of the `/api/generate` handler: the two 400 responses
(lines 195-199 of `src/index.py`) and an uncaught exception (a non-digit,
non-'x' character reaching `int(digit)` on line 220). -/
inductive GenError
  | invalidBin
  | invalidQuantity
  | crash
deriving DecidableEq

/-- Lines 207-211 of `src/index.py`: replace every case-insensitive 'x' of the
BIN pattern by a random digit, other characters verbatim.  `rnd` is the
oracle for the successive `random.randint(0, 9)` draws, consumed from index
`k`; returns the built string and the next unused oracle index. -/
def replaceX (rnd : ℕ → ℕ) : List Char → ℕ → List Char × ℕ
  | [], k => ([], k)
  | c :: rest, k =>
    if c.toLower = 'x' then
      let p := replaceX rnd rest (k + 1)
      (digitChar (rnd k) :: p.1, p.2)
    else
      let p := replaceX rnd rest k
      (c :: p.1, p.2)

/-- Lines 214-215 of `src/index.py`: append random digits while the length is
below 15.  At most 15 iterations can ever run, so fuel 15 makes the `while`
loop structural. -/
def fillTo15 (rnd : ℕ → ℕ) : ℕ → List Char → ℕ → List Char
  | 0, s, _ => s
  | fuel + 1, s, k =>
    if s.length < 15 then fillTo15 rnd fuel (s ++ [digitChar (rnd k)]) (k + 1)
    else s

/-- Lines 205-227 of `src/index.py`: build one card number from the BIN
pattern and the digit oracle, appending the check digit
`(total * 9) % 10` where `total` is the parity-0 Luhn total of the digits so
far; `none` models the uncaught `ValueError` of `int(digit)`. -/
def genNumber (rnd : ℕ → ℕ) (bin_pattern : List Char) : Option (List Char) :=
  let p := replaceX rnd bin_pattern 0
  let card_num := fillTo15 rnd 15 p.1 p.2
  match luhnTotal? 0 0 card_num with
  | none => none
  | some total => some (card_num ++ [digitChar (total * 9 % 10)])

/-- The string `'rnd'` compared against by lines 230/236/242. -/
def rndLit : List Char := ['r', 'n', 'd']

/-- Python `str.lower()` on the ASCII fragment. -/
def lowerStr (s : List Char) : List Char := s.map Char.toLower

/-- One iteration of the `generate_cards` loop (lines 204-247 of
`src/index.py`).  `rnd` is the digit oracle; `rM`, `rY`, `rC` are the oracles
for `random.randint(1, 12)`, `random.randint(current_year + 1,
current_year + 7)` and `random.randint(100, 999)`. -/
def genItem (bin_pattern month year cvv : List Char) (rnd : ℕ → ℕ)
    (rM rY rC : ℕ) : Option GenRecord :=
  match genNumber rnd bin_pattern with
  | none => none
  | some num =>
    some { number := num
           month := if lowerStr month = rndLit then zfill 2 (Nat.toDigits 10 rM)
                    else zfill 2 month
           year := if lowerStr year = rndLit then Nat.toDigits 10 rY
                   else if year.length = 4 then year else '2' :: '0' :: year
           cvv := if lowerStr cvv = rndLit then Nat.toDigits 10 rC
                  else zfill 3 cvv }

/-- Collect the loop iterations; a `none` (uncaught exception) anywhere
aborts the whole request. -/
def seqOpt : List (Option GenRecord) → Option (List GenRecord)
  | [] => some []
  | none :: _ => none
  | some r :: rest => (seqOpt rest).map (fun l => r :: l)

/-- The `/api/generate` handler after the rate-limit gate (lines 188-249 of
`src/index.py`).  Oracles are indexed by loop iteration. -/
def generate_cards (bin_pattern : List Char) (quantity : ℕ)
    (month year cvv : List Char) (_current_year : ℕ) (rnd : ℕ → ℕ → ℕ)
    (rM rY rC : ℕ → ℕ) : Except GenError (List GenRecord) :=
  if bin_pattern.length < 6 then .error .invalidBin
  else if quantity < 1 ∨ 10000 < quantity then .error .invalidQuantity
  else
    match seqOpt ((List.range quantity).map (fun i =>
        genItem bin_pattern month year cvv (rnd i) (rM i) (rY i) (rC i))) with
    | none => .error .crash
    | some recs => .ok recs

/-- Forget the `original` field of a `CardRecord` (it echoes the raw input
by construction, so two records built from different raw strings can only
agree after dropping it). -/
def eraseOriginal (r : CardRecord) : CardRecord :=
  { r with original := [] }

/-- BIN-pattern characters accepted by C1: digits or case-insensitive 'x'. -/
def isDigOrX (c : Char) : Bool :=
  isDig c || (c.toLower == 'x')

/-- The month value guarantee the parser actually enforces: the stored month
string Python-parses to an integer between 1 and 12. -/
def inMonthRange : Option ℤ → Prop
  | none => False
  | some m => 1 ≤ m ∧ m ≤ 12

def sampleRecord : CardRecord :=
  { card_number := "4111111111111111".data, month := "12".data,
    year := "2030".data, cvv := "123".data,
    original := "4111111111111111|12|2030|123".data }

/-- A string containing a non-digit character makes the Luhn loop raise at
that character, whatever the parity and start index. -/
theorem luhnTotal?_none_of_nondigit (parity : ℕ) (s : List Char)
    (h : s.all isDig = false) : ∀ i, luhnTotal? parity i s = none := by
  induction s with
  | nil => simp at h
  | cons c rest ih =>
    intro i
    rw [List.all_cons] at h
    cases hc : isDig c with
    | false => simp [luhnTotal?, int?, hc]
    | true =>
      have hr : rest.all isDig = false := by
        cases hall : rest.all isDig
        · rfl
        · rw [hc, hall] at h; exact absurd h (by simp)
      simp [luhnTotal?, int?, hc, ih hr]

/-- C2 (amended): for every input containing at least one non-digit
character, `luhn_check` returns `false` (the raised `ValueError` is swallowed
by the catch-all, and the total function never throws).  The empty string,
however, is *not* rejected: the loop body never runs, the total is 0, and
`luhn_check` returns `true` — see the counterexample. -/
theorem luhn_check_nondigit_false (s : List Char) (h : s.all isDig = false) :
    luhn_check s = false := by
  rw [luhn_check, luhnTotal?_none_of_nondigit _ s h 0]

theorem luhn_check_nondigit_false_witness :
    ("4a11".data).all isDig = false ∧ luhn_check ("4a11".data) = false :=
  ⟨by decide, luhn_check_nondigit_false ("4a11".data) (by decide)⟩

/-- Counterexample to C2 as stated: on the empty string `luhn_check` returns
`true`, not `false` (the claim demands `false` for empty input). -/
theorem luhn_check_empty_cex : luhn_check [] = true := by decide

/-- C6: the two known test vectors of the Luhn engine. -/
theorem luhn_known_vectors :
    luhn_check ("4532015112830366".data) = true ∧
    luhn_check ("1234567812345678".data) = false := by decide

/-- C7: a batch of between 1 and 100 cards is accepted and classified
per-card in input order (the result list is the element-wise classification,
hence has the input's length); an empty batch or one of more than 100 cards
is rejected with the 400 error. -/
theorem validate_batch_spec (current_year : ℕ) (cards : List (List Char)) :
    ((1 ≤ cards.length ∧ cards.length ≤ 100) →
      validate_batch_body current_year cards
          = .ok (cards.map (classify current_year))
        ∧ (cards.map (classify current_year)).length = cards.length
        ∧ ∀ i : ℕ, (cards.map (classify current_year))[i]?
            = (cards[i]?).map (classify current_year))
    ∧ ((cards.length = 0 ∨ 100 < cards.length) →
      validate_batch_body current_year cards
        = .error "Invalid batch size (max 100)") := by
  constructor
  · rintro ⟨h1, h2⟩
    refine ⟨?_, by simp, fun i => by simp⟩
    rw [validate_batch_body, if_neg]
    rintro (he | hl)
    · rw [he] at h1; simp at h1
    · omega
  · intro h
    rw [validate_batch_body, if_pos]
    rcases h with h | h
    · exact Or.inl (List.length_eq_zero.mp h)
    · exact Or.inr h

theorem validate_batch_spec_witness :
    validate_batch_body 2026 [("4532015112830366|12|2030|123".data)]
        = .ok [classify 2026 ("4532015112830366|12|2030|123".data)]
    ∧ validate_batch_body 2026 [] = .error "Invalid batch size (max 100)" :=
  ⟨((validate_batch_spec 2026 _).1 (by decide)).1,
   (validate_batch_spec 2026 []).2 (Or.inl rfl)⟩

/-- C9: a batch request mutates the per-key rate-limit state exactly as one
call to `check_rate_limit` does — independently of the batch content — and
this is the same state change a single-card validation causes. -/
theorem batch_rate_limit_once (times : List ℚ) (now : ℚ) (cy cy' : ℕ)
    (cards : List (List Char)) (card : List Char) :
    (validate_batch_route times now cy cards).1 = (check_rate_limit times now).1
    ∧ (validate_batch_route times now cy cards).1
        = (validate_card_route times now cy' card).1 := by
  have hb : (validate_batch_route times now cy cards).1
      = (check_rate_limit times now).1 := by
    unfold validate_batch_route
    dsimp only
    split
    · split <;> rfl
    · rfl
  have hs : (validate_card_route times now cy' card).1
      = (check_rate_limit times now).1 := by
    unfold validate_card_route
    dsimp only
    split
    · split <;> rfl
    · rfl
  exact ⟨hb, hb.trans hs.symm⟩

/-- The outcome of `validate_fields` depends on the stored original string
only through the `original` field of a successful record. -/
theorem validate_fields_erase (cy : ℕ) (p0 p1 p2 p3 o o' : List Char) :
    (validate_fields cy p0 p1 p2 p3 o).map eraseOriginal
      = (validate_fields cy p0 p1 p2 p3 o').map eraseOriginal := by
  unfold validate_fields
  dsimp only
  repeat' split
  all_goals simp [eraseOriginal, Except.map]

/-- C8: parsing looks only at the first four stripped '|'-segments of the raw
string — two inputs with the same first four segments fail with the same
message or succeed with the same validated fields; extra segments are
ignored (only `original`, which by construction echoes the whole raw input,
can differ). -/
theorem extra_segments_ignored (cy : ℕ) (raw raw' p0 p1 p2 p3 : List Char)
    (rest rest' : List (List Char))
    (h : (pySplit '|' raw).map pyStrip = p0 :: p1 :: p2 :: p3 :: rest)
    (h' : (pySplit '|' raw').map pyStrip = p0 :: p1 :: p2 :: p3 :: rest') :
    (validate_card_format cy raw).map eraseOriginal
      = (validate_card_format cy raw').map eraseOriginal := by
  unfold validate_card_format
  rw [h, h']
  exact validate_fields_erase cy p0 p1 p2 p3 raw raw'

theorem extra_segments_ignored_witness :
    (validate_card_format 2026
        ("4111111111111111|12|2030|123".data)).map eraseOriginal
      = (validate_card_format 2026
        ("4111111111111111|12|2030|123|extra|stuff".data)).map eraseOriginal :=
  extra_segments_ignored 2026 ("4111111111111111|12|2030|123".data)
    ("4111111111111111|12|2030|123|extra|stuff".data)
    ("4111111111111111".data) ("12".data) ("2030".data) ("123".data)
    [] [("extra".data), ("stuff".data)] (by decide) (by decide)

/-- C5 (amended): once the first four segments exist and the card number has
admissible length, an out-of-range month yields exactly
`"Invalid month"`, while a month that fails to parse as a Python `int`
yields `"Invalid month format"` — not `"Invalid month"` as claimed. -/
theorem month_error_messages (cy : ℕ) (raw p0 p1 p2 p3 : List Char)
    (rest : List (List Char))
    (hsplit : (pySplit '|' raw).map pyStrip = p0 :: p1 :: p2 :: p3 :: rest)
    (hlen : 13 ≤ (p0.filter isDig).length ∧ (p0.filter isDig).length ≤ 19) :
    (pyInt? (zfill 2 p1) = none →
      validate_card_format cy raw = .error "Invalid month format")
    ∧ ∀ m : ℤ, pyInt? (zfill 2 p1) = some m → (m < 1 ∨ 12 < m) →
      validate_card_format cy raw = .error "Invalid month" := by
  have hv : validate_card_format cy raw = validate_fields cy p0 p1 p2 p3 raw := by
    unfold validate_card_format
    rw [hsplit]
  constructor
  · intro hm
    rw [hv]
    unfold validate_fields
    dsimp only
    rw [if_neg (by omega), hm]
  · intro m hm hrange
    rw [hv]
    unfold validate_fields
    dsimp only
    rw [if_neg (by omega), hm]
    dsimp only
    rw [if_pos hrange]

/-- Counterexample to C5 as stated: a month segment that fails integer
parsing is reported as `"Invalid month format"`, which is not the claimed
exact message `"Invalid month"`. -/
theorem month_error_messages_cex :
    validate_card_format 2026 ("4111111111111111|ab|2030|123".data)
        = .error "Invalid month format"
    ∧ "Invalid month format" ≠ "Invalid month" := by decide

theorem month_error_messages_witness :
    validate_card_format 2026 ("4111111111111111|ab|2030|123".data)
        = .error "Invalid month format"
    ∧ validate_card_format 2026 ("4111111111111111|13|2030|123".data)
        = .error "Invalid month" :=
  ⟨(month_error_messages 2026 ("4111111111111111|ab|2030|123".data)
      ("4111111111111111".data) ("ab".data) ("2030".data) ("123".data) []
      (by decide) (by decide)).1 (by decide),
   (month_error_messages 2026 ("4111111111111111|13|2030|123".data)
      ("4111111111111111".data) ("13".data) ("2030".data) ("123".data) []
      (by decide) (by decide)).2 13 (by decide) (by decide)⟩

/-- While the per-key list holds fewer than 100 timestamps and every time in
sight lies inside one common window, every call is admitted and appended. -/
theorem runCalls_all_admit (calls : List ℚ) : ∀ (done : List ℚ) (lo hi : ℚ),
    hi - lo < RATE_WINDOW →
    (∀ x ∈ done, lo ≤ x ∧ x ≤ hi) → (∀ x ∈ calls, lo ≤ x ∧ x ≤ hi) →
    done.length + calls.length ≤ 100 →
    runCalls done calls = (done ++ calls, List.replicate calls.length true) := by
  induction calls with
  | nil => intro done lo hi _ _ _ _; simp [runCalls]
  | cons now rest ih =>
    intro done lo hi hwin hdone hcalls hcount
    have hnow := hcalls now (by simp)
    have hfilter :
        done.filter (fun req_time => decide (now - req_time < RATE_WINDOW)) = done := by
      apply List.filter_eq_self.mpr
      intro t ht
      have hbt := hdone t ht
      have : now - t < RATE_WINDOW := by
        have h1 : now - t ≤ hi - lo := by linarith [hnow.2, hbt.1]
        linarith
      simpa using this
    have hstep : check_rate_limit done now = (done ++ [now], true) := by
      unfold check_rate_limit
      dsimp only
      rw [hfilter, if_neg]
      unfold RATE_LIMIT
      simp at hcount ⊢
      omega
    have hdone' : ∀ x ∈ done ++ [now], lo ≤ x ∧ x ≤ hi := by
      intro x hx
      rcases List.mem_append.mp hx with hx | hx
      · exact hdone x hx
      · rcases List.mem_singleton.mp hx with rfl
        exact hnow
    have hcalls' : ∀ x ∈ rest, lo ≤ x ∧ x ≤ hi := fun x hx => hcalls x (by simp [hx])
    have hcount' : (done ++ [now]).length + rest.length ≤ 100 := by
      simp at hcount ⊢
      omega
    rw [runCalls]
    rw [hstep, ih (done ++ [now]) lo hi hwin hdone' hcalls' hcount']
    simp [List.replicate_succ]

/-- Sequencing rate-limit calls splits along list append. -/
theorem runCalls_append (xs : List ℚ) : ∀ (times ys : List ℚ),
    runCalls times (xs ++ ys)
      = ((runCalls (runCalls times xs).1 ys).1,
         (runCalls times xs).2 ++ (runCalls (runCalls times xs).1 ys).2) := by
  induction xs with
  | nil => intro times ys; simp [runCalls]
  | cons a xs ih =>
    intro times ys
    simp only [List.cons_append, runCalls, List.append_eq]
    rw [ih]

/-- C3: starting from an empty record for a key, 101 calls whose times all
lie within one `RATE_WINDOW`-wide interval are admitted exactly 100 times:
the first 100 return `true`, the 101st returns `false` and leaves the stored
list equal to the first 100 timestamps (nothing recorded), and a later call
made `RATE_WINDOW` after the interval prunes all 100 entries and is admitted
again, storing exactly its own timestamp. -/
theorem rate_limit_lifecycle (calls : List ℚ) (lo hi T : ℚ)
    (hlen : calls.length = 101)
    (hbound : ∀ x ∈ calls, lo ≤ x ∧ x ≤ hi)
    (hwin : hi - lo < RATE_WINDOW)
    (hT : hi + RATE_WINDOW ≤ T) :
    (runCalls [] calls).2 = List.replicate 100 true ++ [false]
    ∧ (runCalls [] calls).1 = calls.take 100
    ∧ check_rate_limit (runCalls [] calls).1 T = ([T], true) := by
  have hdlen : (calls.drop 100).length = 1 := by simp [hlen]
  obtain ⟨c, hc⟩ : ∃ c, calls.drop 100 = [c] := by
    match hd : calls.drop 100 with
    | [] => rw [hd] at hdlen; simp at hdlen
    | [c] => exact ⟨c, rfl⟩
    | c :: c' :: l => rw [hd] at hdlen; simp at hdlen
  have hsplit : calls = calls.take 100 ++ [c] := by
    rw [← hc]; exact (List.take_append_drop 100 calls).symm
  have htake_len : (calls.take 100).length = 100 := by simp [hlen]
  have htake_mem : ∀ x ∈ calls.take 100, lo ≤ x ∧ x ≤ hi :=
    fun x hx => hbound x (List.take_subset 100 calls hx)
  have hcmem : lo ≤ c ∧ c ≤ hi := by
    refine hbound c ?_
    rw [hsplit]
    simp
  have h1 : runCalls [] (calls.take 100)
      = (calls.take 100, List.replicate 100 true) := by
    have := runCalls_all_admit (calls.take 100) [] lo hi hwin (by simp)
      htake_mem (by simp [htake_len])
    simpa [htake_len] using this
  have hfull :
      (calls.take 100).filter (fun req_time => decide (c - req_time < RATE_WINDOW))
        = calls.take 100 := by
    apply List.filter_eq_self.mpr
    intro t ht
    have hbt := htake_mem t ht
    have : c - t < RATE_WINDOW := by linarith [hcmem.2, hbt.1, hwin]
    simpa using this
  have hstep : check_rate_limit (calls.take 100) c = (calls.take 100, false) := by
    unfold check_rate_limit
    dsimp only
    rw [hfull, if_pos]
    rw [htake_len]
    unfold RATE_LIMIT
    omega
  have hrun : runCalls [] calls = (calls.take 100, List.replicate 100 true ++ [false]) := by
    conv_lhs => rw [hsplit]
    rw [runCalls_append, h1]
    dsimp only
    rw [runCalls]
    rw [hstep]
    simp [runCalls]
  refine ⟨by rw [hrun], by rw [hrun], ?_⟩
  rw [hrun]
  have hempty :
      (calls.take 100).filter (fun req_time => decide (T - req_time < RATE_WINDOW))
        = [] := by
    apply List.filter_eq_nil_iff.mpr
    intro t ht
    have hbt := htake_mem t ht
    simp only [decide_eq_true_eq]
    intro habs
    linarith [hbt.2]
  unfold check_rate_limit
  dsimp only
  rw [hempty, if_neg]
  · simp
  · unfold RATE_LIMIT
    simp

theorem rate_limit_lifecycle_witness :
    (List.replicate 101 (0 : ℚ)).length = 101
    ∧ (0 : ℚ) - 0 < RATE_WINDOW
    ∧ (0 : ℚ) + RATE_WINDOW ≤ 3600
    ∧ (runCalls [] (List.replicate 101 (0 : ℚ))).2
        = List.replicate 100 true ++ [false]
    ∧ (runCalls [] (List.replicate 101 (0 : ℚ))).1
        = (List.replicate 101 (0 : ℚ)).take 100
    ∧ check_rate_limit (runCalls [] (List.replicate 101 (0 : ℚ))).1 3600
        = ([3600], true) := by
  have h := rate_limit_lifecycle (List.replicate 101 (0 : ℚ)) 0 0 3600
    (by simp) (fun x hx => by simp [List.eq_of_mem_replicate hx])
    (by unfold RATE_WINDOW; norm_num) (by unfold RATE_WINDOW; norm_num)
  exact ⟨by simp, by unfold RATE_WINDOW; norm_num, by unfold RATE_WINDOW; norm_num,
    h.1, h.2.1, h.2.2⟩

/-- Every record of a successfully collected generation run comes from one
loop iteration. -/
theorem seqOpt_mem : ∀ (l : List (Option GenRecord)) (recs : List GenRecord),
    seqOpt l = some recs → ∀ r ∈ recs, some r ∈ l := by
  intro l
  induction l with
  | nil =>
    intro recs h r hr
    simp [seqOpt] at h
    subst h
    simp at hr
  | cons o rest ih =>
    intro recs h r hr
    match o with
    | none => simp [seqOpt] at h
    | some a =>
      rw [seqOpt] at h
      match hrest : seqOpt rest with
      | none => rw [hrest] at h; simp at h
      | some l' =>
        rw [hrest] at h
        simp at h
        subst h
        rcases List.mem_cons.mp hr with rfl | hr'
        · exact List.mem_cons_self _ _
        · exact List.mem_cons_of_mem _ (ih l' hrest r hr')

/-- C10: when the `month` and `cvv` arguments are not (case-insensitively)
`"rnd"`, every emitted record carries them merely zero-padded — `zfill 2` for
the month, `zfill 3` for the CVV — with no range or digit validation
whatsoever. -/
theorem generate_fixed_month_cvv (bin_pattern : List Char) (quantity : ℕ)
    (month year cvv : List Char) (cy : ℕ) (rnd : ℕ → ℕ → ℕ) (rM rY rC : ℕ → ℕ)
    (recs : List GenRecord)
    (hm : lowerStr month ≠ rndLit) (hc : lowerStr cvv ≠ rndLit)
    (hok : generate_cards bin_pattern quantity month year cvv cy rnd rM rY rC
      = .ok recs) :
    ∀ rec ∈ recs, rec.month = zfill 2 month ∧ rec.cvv = zfill 3 cvv := by
  intro rec hrec
  unfold generate_cards at hok
  split at hok
  · exact absurd hok (by simp)
  split at hok
  · exact absurd hok (by simp)
  split at hok
  · exact absurd hok (by simp)
  rename_i recs' hseq
  injection hok with hok
  subst hok
  have hmem := seqOpt_mem _ _ hseq rec hrec
  rw [List.mem_map] at hmem
  obtain ⟨i, -, hi⟩ := hmem
  unfold genItem at hi
  split at hi
  · exact absurd hi (by simp)
  rename_i num hnum
  injection hi with hi
  subst hi
  constructor
  · dsimp only
    rw [if_neg hm]
  · dsimp only
    rw [if_neg hc]

theorem generate_fixed_month_cvv_witness :
    lowerStr ("13".data) ≠ rndLit
    ∧ lowerStr ("99999".data) ≠ rndLit
    ∧ ({ number := "4111110000000005".data, month := "13".data,
         year := "2030".data, cvv := "99999".data } : GenRecord).month
        = zfill 2 ("13".data)
    ∧ ({ number := "4111110000000005".data, month := "13".data,
         year := "2030".data, cvv := "99999".data } : GenRecord).cvv
        = zfill 3 ("99999".data) := by
  have h := generate_fixed_month_cvv ("411111".data) 1 ("13".data) ("2030".data)
    ("99999".data) 2026 (fun _ _ => 0) (fun _ => 1) (fun _ => 2027) (fun _ => 123)
    [{ number := "4111110000000005".data, month := "13".data,
       year := "2030".data, cvv := "99999".data }]
    (by decide) (by decide) (by decide)
    { number := "4111110000000005".data, month := "13".data,
      year := "2030".data, cvv := "99999".data } (by simp)
  exact ⟨by decide, by decide, h.1, h.2⟩

/-- `int?` recovers the digit value placed by `digitChar`. -/
theorem int?_digitChar (d : ℕ) (hd : d ≤ 9) : int? (digitChar d) = some d := by
  interval_cases d <;> decide

/-- `digitChar` of a digit value is a digit character. -/
theorem isDig_digitChar (d : ℕ) (hd : d ≤ 9) : isDig (digitChar d) = true := by
  interval_cases d <;> decide

/-- A digit-or-'x' pattern turns into an all-digit string of the same length
under `replaceX`, for any digit oracle. -/
theorem replaceX_spec (rnd : ℕ → ℕ) (hrnd : ∀ k, rnd k ≤ 9) :
    ∀ (pattern : List Char), pattern.all isDigOrX = true → ∀ k,
      (replaceX rnd pattern k).1.all isDig = true
      ∧ (replaceX rnd pattern k).1.length = pattern.length := by
  intro pattern
  induction pattern with
  | nil => intro _ k; simp [replaceX]
  | cons c rest ih =>
    intro hall k
    rw [List.all_cons, Bool.and_eq_true] at hall
    by_cases hx : c.toLower = 'x'
    · have h1 := ih hall.2 (k + 1)
      rw [replaceX, if_pos hx]
      refine ⟨?_, by simpa using h1.2⟩
      rw [List.all_cons, Bool.and_eq_true]
      exact ⟨isDig_digitChar _ (hrnd k), h1.1⟩
    · have hdig : isDig c = true := by
        have h1 := hall.1
        unfold isDigOrX at h1
        cases hd : isDig c
        · rw [hd, Bool.false_or] at h1
          exact absurd (beq_iff_eq.mp h1) hx
        · rfl
      have h1 := ih hall.2 k
      rw [replaceX, if_neg hx]
      refine ⟨?_, by simpa using h1.2⟩
      rw [List.all_cons, Bool.and_eq_true]
      exact ⟨hdig, h1.1⟩

/-- `fillTo15` keeps digit strings all-digit and reaches the expected length:
unchanged when already at least 15, otherwise grown by up to `fuel` random
digits towards 15. -/
theorem fillTo15_spec (rnd : ℕ → ℕ) (hrnd : ∀ k, rnd k ≤ 9) :
    ∀ (fuel : ℕ) (s : List Char) (k : ℕ), s.all isDig = true →
      (fillTo15 rnd fuel s k).all isDig = true
      ∧ (fillTo15 rnd fuel s k).length
          = (if 15 ≤ s.length then s.length else min 15 (s.length + fuel)) := by
  intro fuel
  induction fuel with
  | zero =>
    intro s k hs
    rw [fillTo15]
    refine ⟨hs, ?_⟩
    split
    · rfl
    · omega
  | succ fuel ih =>
    intro s k hs
    rw [fillTo15]
    by_cases hlt : s.length < 15
    · rw [if_pos hlt]
      have hs' : (s ++ [digitChar (rnd k)]).all isDig = true := by
        rw [List.all_append, Bool.and_eq_true]
        exact ⟨hs, by simpa using isDig_digitChar _ (hrnd k)⟩
      have h1 := ih (s ++ [digitChar (rnd k)]) (k + 1) hs'
      refine ⟨h1.1, ?_⟩
      rw [h1.2]
      simp only [List.length_append, List.length_singleton]
      split <;> split <;> omega
    · rw [if_neg hlt]
      exact ⟨hs, by rw [if_pos (by omega)]⟩

/-- All-digit strings never make the Luhn loop raise. -/
theorem luhnTotal?_isSome (parity : ℕ) (s : List Char) (h : s.all isDig = true) :
    ∀ i, ∃ t, luhnTotal? parity i s = some t := by
  induction s with
  | nil => intro i; exact ⟨0, rfl⟩
  | cons c rest ih =>
    intro i
    rw [List.all_cons, Bool.and_eq_true] at h
    obtain ⟨t, ht⟩ := ih h.2 (i + 1)
    refine ⟨luhnStep parity i (c.toNat - 48) + t, ?_⟩
    rw [luhnTotal?, int?, if_pos h.1, ht]

/-- Appending one digit character adds its Luhn step at index
`i + s.length`. -/
theorem luhnTotal?_append (parity : ℕ) (s : List Char) : ∀ (i t : ℕ),
    luhnTotal? parity i s = some t → ∀ (c : Char) (d : ℕ), int? c = some d →
    luhnTotal? parity i (s ++ [c])
      = some (t + luhnStep parity (i + s.length) d) := by
  induction s with
  | nil =>
    intro i t ht c d hc
    rw [luhnTotal?] at ht
    injection ht with ht
    subst ht
    simp [luhnTotal?, hc]
  | cons a s ih =>
    intro i t ht c d hc
    rw [luhnTotal?] at ht
    match ha : int? a with
    | none => rw [ha] at ht; exact absurd ht (by simp)
    | some da =>
      rw [ha] at ht
      match hts : luhnTotal? parity (i + 1) s with
      | none => rw [hts] at ht; exact absurd ht (by simp)
      | some ts =>
        rw [hts] at ht
        injection ht with ht
        subst ht
        have happ := ih (i + 1) ts hts c d hc
        rw [List.cons_append, luhnTotal?, ha, happ]
        simp only [List.length_cons]
        rw [show i + 1 + s.length = i + (s.length + 1) from by omega]
        congr 1
        omega

/-- Core check-digit correctness: for an all-digit string of odd length, the
appended digit `(total * 9) % 10` makes `luhn_check` succeed — the doubled
positions of the generation loop (even indices) land on the doubled
positions of `luhn_check` (parity `length % 2 = 0` of the extended
string). -/
theorem luhn_check_append_check_digit (s : List Char)
    (hodd : s.length % 2 = 1) (total : ℕ)
    (htot : luhnTotal? 0 0 s = some total) :
    luhn_check (s ++ [digitChar (total * 9 % 10)]) = true := by
  have hd9 : total * 9 % 10 ≤ 9 := by omega
  have hd := int?_digitChar (total * 9 % 10) hd9
  have happ := luhnTotal?_append 0 s 0 total htot _ _ hd
  have hstep : luhnStep 0 (0 + s.length) (total * 9 % 10) = total * 9 % 10 := by
    unfold luhnStep
    rw [if_neg (by omega)]
  have hlen : (s ++ [digitChar (total * 9 % 10)]).length % 2 = 0 := by
    simp only [List.length_append, List.length_singleton]
    omega
  unfold luhn_check
  rw [hlen, happ, hstep]
  simp only [beq_iff_eq]
  omega

/-- C1 (amended): for every BIN pattern accepted by `generate_cards`
consisting of digits and case-insensitive 'x' characters whose length is at
most 15 **or odd**, and every admissible quantity, month, year and cvv,
every card number in the returned sequence passes `luhn_check`.  (For even
pattern lengths of 16 or more the check digit is computed against the wrong
parity and the claim fails — see the counterexample.) -/
theorem generate_cards_luhn_valid (bin_pattern : List Char) (quantity : ℕ)
    (month year cvv : List Char) (cy : ℕ) (rnd : ℕ → ℕ → ℕ) (rM rY rC : ℕ → ℕ)
    (recs : List GenRecord)
    (hpat : bin_pattern.all isDigOrX = true)
    (hrnd : ∀ i k, rnd i k ≤ 9)
    (hplen : bin_pattern.length ≤ 15 ∨ bin_pattern.length % 2 = 1)
    (hok : generate_cards bin_pattern quantity month year cvv cy rnd rM rY rC
      = .ok recs) :
    ∀ rec ∈ recs, luhn_check rec.number = true := by
  intro rec hrec
  unfold generate_cards at hok
  split at hok
  · exact absurd hok (by simp)
  split at hok
  · exact absurd hok (by simp)
  split at hok
  · exact absurd hok (by simp)
  rename_i recs' hseq
  injection hok with hok
  subst hok
  have hmem := seqOpt_mem _ _ hseq rec hrec
  rw [List.mem_map] at hmem
  obtain ⟨i, -, hi⟩ := hmem
  unfold genItem at hi
  split at hi
  · exact absurd hi (by simp)
  rename_i num hnum
  injection hi with hi
  subst hi
  dsimp only
  unfold genNumber at hnum
  obtain ⟨hrep_dig, hrep_len⟩ := replaceX_spec (rnd i) (hrnd i) bin_pattern hpat 0
  obtain ⟨hfill_dig, hfill_len⟩ := fillTo15_spec (rnd i) (hrnd i) 15
    (replaceX (rnd i) bin_pattern 0).1 (replaceX (rnd i) bin_pattern 0).2 hrep_dig
  have hodd :
      (fillTo15 (rnd i) 15 (replaceX (rnd i) bin_pattern 0).1
        (replaceX (rnd i) bin_pattern 0).2).length % 2 = 1 := by
    rw [hfill_len, hrep_len]
    rcases hplen with h | h
    · split <;> omega
    · split <;> omega
  obtain ⟨total, htotal⟩ := luhnTotal?_isSome 0 _ hfill_dig 0
  dsimp only at hnum
  rw [htotal] at hnum
  injection hnum with hnum
  subst hnum
  exact luhn_check_append_check_digit _ hodd total htotal

theorem generate_cards_luhn_valid_witness :
    ("411111".data).all isDigOrX = true
    ∧ ("411111".data).length ≤ 15
    ∧ luhn_check ("4111110000000005".data) = true := by
  refine ⟨by decide, by decide, ?_⟩
  exact generate_cards_luhn_valid ("411111".data) 1 ("01".data) ("2030".data)
    ("123".data) 2026 (fun _ _ => 0) (fun _ => 1) (fun _ => 2027) (fun _ => 123)
    [{ number := "4111110000000005".data, month := "01".data,
       year := "2030".data, cvv := "123".data }]
    (by decide) (fun i k => Nat.zero_le 9) (Or.inl (by decide)) (by decide)
    { number := "4111110000000005".data, month := "01".data,
      year := "2030".data, cvv := "123".data } (by simp)

/-- Counterexample to C1 as stated: the all-digit 16-character BIN pattern
`"5111111111111111"` is accepted by `generate_cards` (length ≥ 6, digits
only), the run succeeds deterministically (no 'x' to substitute, no filling
needed), yet the single emitted card number `"51111111111111117"` fails
`luhn_check`: the generation loop doubled even indices, while `luhn_check`
on the 17-character result doubles odd indices. -/
theorem generate_cards_luhn_valid_cex :
    generate_cards ("5111111111111111".data) 1 ("01".data) ("2030".data)
        ("123".data) 2026 (fun _ _ => 0) (fun _ => 1) (fun _ => 2027)
        (fun _ => 123)
      = .ok [{ number := "51111111111111117".data, month := "01".data,
               year := "2030".data, cvv := "123".data }]
    ∧ luhn_check ("51111111111111117".data) = false
    ∧ ("5111111111111111".data).all isDigOrX = true
    ∧ 6 ≤ ("5111111111111111".data).length := by
  refine ⟨by decide, by decide, by decide, by decide⟩

/-- A successful single-character parse means the character is a digit of
value at most 9. -/
theorem int?_bound {c : Char} {d : ℕ} (h : int? c = some d) :
    isDig c = true ∧ d ≤ 9 := by
  unfold int? at h
  split at h
  · injection h with h
    subst h
    rename_i hd
    refine ⟨hd, ?_⟩
    unfold isDig at hd
    rw [Bool.and_eq_true, decide_eq_true_eq, decide_eq_true_eq] at hd
    omega
  · exact absurd h (by simp)

/-- The accumulator loop of Python `int` is bounded by one power of ten per
digit consumed (underscores consume no power). -/
theorem pyIntLoop_bound : ∀ (n : ℕ) (s : List Char), s.length ≤ n →
    ∀ (acc v : ℕ), pyIntLoop acc s = some v →
    v < (acc + 1) * 10 ^ (s.filter isDig).length := by
  intro n
  induction n with
  | zero =>
    intro s hs acc v h
    have hnil : s = [] := List.length_eq_zero.mp (Nat.le_zero.mp hs)
    subst hnil
    simp only [pyIntLoop] at h
    injection h with h
    subst h
    simp
  | succ n ih =>
    intro s hs acc v h
    match s with
    | [] =>
      simp only [pyIntLoop] at h
      injection h with h
      subst h
      simp
    | c :: rest =>
      rw [pyIntLoop.eq_def] at h
      dsimp only at h
      by_cases hc : c = '_'
      · rw [if_pos hc] at h
        match rest with
        | [] => exact absurd h (by simp)
        | c2 :: rest2 =>
          dsimp only at h
          match h2 : int? c2 with
          | none => rw [h2] at h; exact absurd h (by simp)
          | some d =>
            rw [h2] at h
            obtain ⟨hdig2, hd9⟩ := int?_bound h2
            have hrec := ih rest2 (by simp at hs; omega) (acc * 10 + d) v h
            have hcnd : isDig c = false := by subst hc; decide
            rw [List.filter_cons, List.filter_cons, hcnd, hdig2]
            simp only [if_false, if_true, List.length_cons]
            calc v < (acc * 10 + d + 1) * 10 ^ (rest2.filter isDig).length := hrec
              _ ≤ ((acc + 1) * 10) * 10 ^ (rest2.filter isDig).length :=
                  Nat.mul_le_mul_right _ (by omega)
              _ = (acc + 1) * 10 ^ ((rest2.filter isDig).length + 1) := by ring
      · rw [if_neg hc] at h
        match h2 : int? c with
        | none => rw [h2] at h; exact absurd h (by simp)
        | some d =>
          rw [h2] at h
          obtain ⟨hdigc, hd9⟩ := int?_bound h2
          have hrec := ih rest (by simp at hs; omega) (acc * 10 + d) v h
          rw [List.filter_cons, hdigc]
          simp only [if_true, List.length_cons]
          calc v < (acc * 10 + d + 1) * 10 ^ (rest.filter isDig).length := hrec
            _ ≤ ((acc + 1) * 10) * 10 ^ (rest.filter isDig).length :=
                Nat.mul_le_mul_right _ (by omega)
            _ = (acc + 1) * 10 ^ ((rest.filter isDig).length + 1) := by ring

/-- The unsigned part of Python `int` is bounded by ten to the number of
digit characters it contains. -/
theorem pyIntDigits?_bound (s : List Char) (v : ℕ) (h : pyIntDigits? s = some v) :
    v < 10 ^ (s.filter isDig).length := by
  match s with
  | [] => exact absurd h (by simp [pyIntDigits?])
  | c :: rest =>
    simp only [pyIntDigits?] at h
    match h2 : int? c with
    | none => rw [h2] at h; exact absurd h (by simp)
    | some d =>
      rw [h2] at h
      obtain ⟨hdigc, hd9⟩ := int?_bound h2
      have hrec := pyIntLoop_bound rest.length rest le_rfl d v h
      rw [List.filter_cons, hdigc]
      simp only [if_true, List.length_cons]
      calc v < (d + 1) * 10 ^ (rest.filter isDig).length := hrec
        _ ≤ 10 * 10 ^ (rest.filter isDig).length :=
            Nat.mul_le_mul_right _ (by omega)
        _ = 10 ^ ((rest.filter isDig).length + 1) := by ring

/-- `dropWhile` never lengthens a list. -/
theorem dropWhile_length_le (p : Char → Bool) : ∀ l : List Char,
    (l.dropWhile p).length ≤ l.length := by
  intro l
  induction l with
  | nil => simp
  | cons c rest ih =>
    rw [List.dropWhile_cons]
    split
    · exact le_trans ih (by simp)
    · simp

/-- `dropWhile` that removes nothing (by length) is the identity. -/
theorem dropWhile_eq_self_of_length (p : Char → Bool) (l : List Char)
    (h : (l.dropWhile p).length = l.length) : l.dropWhile p = l := by
  match l with
  | [] => rfl
  | c :: rest =>
    rw [List.dropWhile_cons] at h ⊢
    by_cases hp : p c = true
    · exfalso
      rw [if_pos hp] at h
      have := dropWhile_length_le p rest
      simp only [List.length_cons] at h
      omega
    · rw [if_neg hp]

/-- Stripping cannot lengthen a string. -/
theorem pyStrip_length_le (s : List Char) : (pyStrip s).length ≤ s.length := by
  unfold pyStrip
  have h1 := dropWhile_length_le isPySpace s
  have h2 := dropWhile_length_le isPySpace (s.dropWhile isPySpace).reverse
  simp only [List.length_reverse] at h2 ⊢
  omega

/-- A strip that removes nothing (by length) is the identity. -/
theorem pyStrip_eq_self_of_length (s : List Char)
    (h : (pyStrip s).length = s.length) : pyStrip s = s := by
  have h1 := dropWhile_length_le isPySpace s
  have h2 := dropWhile_length_le isPySpace (s.dropWhile isPySpace).reverse
  rw [pyStrip] at h
  simp only [List.length_reverse] at h h2
  have h3 := dropWhile_eq_self_of_length isPySpace (s.dropWhile isPySpace).reverse
    (by simp only [List.length_reverse]; omega)
  rw [pyStrip, h3, List.reverse_reverse]
  exact dropWhile_eq_self_of_length isPySpace s (by omega)

/-- A filter that removes nothing (by length) means every element satisfies
the predicate. -/
theorem all_of_filter_length (p : Char → Bool) (l : List Char)
    (h : (l.filter p).length = l.length) : l.all p = true := by
  induction l with
  | nil => rfl
  | cons c rest ih =>
    rw [List.filter_cons] at h
    rw [List.all_cons, Bool.and_eq_true]
    split at h
    · rename_i hp
      simp only [List.length_cons] at h
      exact ⟨hp, ih (by omega)⟩
    · exfalso
      have := List.length_filter_le p rest
      simp only [List.length_cons] at h
      omega

/-- A 4-character string that Python-parses to an integer of at least 1000
consists of exactly four ASCII digits (a sign or underscore would leave at
most three digits, bounding the value below 1000). -/
theorem pyInt?_year_digits (s : List Char) (y : ℤ) (hy : pyInt? s = some y)
    (hlen : s.length = 4) (hbig : 1000 ≤ y) : s.all isDig = true := by
  have hstrip_le : (pyStrip s).length ≤ s.length := pyStrip_length_le s
  unfold pyInt? at hy
  split at hy
  · rename_i rest heq
    match hn : pyIntDigits? rest with
    | none => rw [hn] at hy; exact absurd hy (by simp)
    | some n =>
      rw [hn] at hy
      have hy2 : ((n : ℕ) : ℤ) = y := Option.some.inj hy
      have hb := pyIntDigits?_bound rest n hn
      have hf : (rest.filter isDig).length ≤ rest.length := List.length_filter_le _ _
      have hrl : rest.length ≤ 3 := by
        have := congrArg List.length heq
        simp only [List.length_cons] at this
        omega
      have hpow : 10 ^ (rest.filter isDig).length ≤ 1000 := by
        calc 10 ^ (rest.filter isDig).length ≤ 10 ^ 3 :=
              Nat.pow_le_pow_right (by norm_num) (by omega)
          _ = 1000 := by norm_num
      omega
  · rename_i rest heq
    match hn : pyIntDigits? rest with
    | none => rw [hn] at hy; exact absurd hy (by simp)
    | some n =>
      rw [hn] at hy
      have hy2 : -((n : ℕ) : ℤ) = y := Option.some.inj hy
      omega
  · match hn : pyIntDigits? (pyStrip s) with
    | none => rw [hn] at hy; exact absurd hy (by simp)
    | some n =>
      rw [hn] at hy
      have hy2 : ((n : ℕ) : ℤ) = y := Option.some.inj hy
      have hb := pyIntDigits?_bound (pyStrip s) n hn
      have hf : ((pyStrip s).filter isDig).length ≤ (pyStrip s).length :=
        List.length_filter_le _ _
      have h4 : 4 ≤ ((pyStrip s).filter isDig).length := by
        by_contra hlt
        push_neg at hlt
        have hpow : 10 ^ ((pyStrip s).filter isDig).length ≤ 1000 := by
          calc 10 ^ ((pyStrip s).filter isDig).length ≤ 10 ^ 3 :=
                Nat.pow_le_pow_right (by norm_num) (by omega)
            _ = 1000 := by norm_num
        omega
      have h6 : (pyStrip s).length = s.length := by omega
      have h7 : pyStrip s = s := pyStrip_eq_self_of_length s h6
      rw [h7] at h4 hf
      exact all_of_filter_length isDig s (by omega)

/-- The zero-padded string is at least the requested width. -/
theorem zfill_length_ge (w : ℕ) (s : List Char) : w ≤ (zfill w s).length := by
  unfold zfill
  split
  · omega
  · rename_i hw
    split
    · simp
    · rename_i c rest
      split
      · simp only [List.length_cons, List.length_append, List.length_replicate]
        simp only [List.length_cons] at hw
        omega
      · simp only [List.length_cons, List.length_append, List.length_replicate]
        simp only [List.length_cons] at hw
        omega

/-- C4 (amended): a successful parse (with a realistic current calendar
year, at least 1000) yields a record whose `card_number` has 13-19 digit
characters only, whose `month` has length at least 2 and Python-parses into
[1, 12] (but need not be a 2-character digit-only string — see the
counterexample), whose `year` is exactly 4 digit characters, whose `cvv` is
3 or 4 digit characters, and whose `original` is the raw input unmodified. -/
theorem validate_card_format_invariants (current_year : ℕ) (raw : List Char)
    (r : CardRecord) (hcy : 1000 ≤ current_year)
    (h : validate_card_format current_year raw = .ok r) :
    (13 ≤ r.card_number.length ∧ r.card_number.length ≤ 19
      ∧ r.card_number.all isDig = true)
    ∧ (2 ≤ r.month.length ∧ inMonthRange (pyInt? r.month))
    ∧ (r.year.length = 4 ∧ r.year.all isDig = true)
    ∧ (3 ≤ r.cvv.length ∧ r.cvv.length ≤ 4 ∧ r.cvv.all isDig = true)
    ∧ r.original = raw := by
  unfold validate_card_format at h
  split at h
  case h_2 => exact absurd h (by simp)
  rename_i parts p0 p1 p2 p3 rest heq
  unfold validate_fields at h
  dsimp only at h
  by_cases hnum : (p0.filter isDig).length < 13 ∨ 19 < (p0.filter isDig).length
  · rw [if_pos hnum] at h
    exact absurd h (by simp)
  rw [if_neg hnum] at h
  match hm : pyInt? (zfill 2 p1) with
  | none =>
    rw [hm] at h
    exact absurd h (by simp)
  | some m =>
    rw [hm] at h
    dsimp only at h
    by_cases hmrange : m < 1 ∨ 12 < m
    · rw [if_pos hmrange] at h
      exact absurd h (by simp)
    rw [if_neg hmrange] at h
    match hy : pyInt? (if p2.length = 2 then '2' :: '0' :: p2 else p2) with
    | none =>
      rw [hy] at h
      exact absurd h (by simp)
    | some y =>
      rw [hy] at h
      dsimp only at h
      by_cases hyear : y < (current_year : ℤ)
          ∨ (if p2.length = 2 then '2' :: '0' :: p2 else p2).length ≠ 4
      · rw [if_pos hyear] at h
        exact absurd h (by simp)
      rw [if_neg hyear] at h
      by_cases hcvv : p3.length < 3 ∨ 4 < p3.length ∨ ¬p3.all isDig = true
      · rw [if_pos hcvv] at h
        exact absurd h (by simp)
      rw [if_neg hcvv] at h
      injection h with h
      subst h
      push_neg at hnum hmrange hyear hcvv
      dsimp only
      refine ⟨⟨by omega, by omega, ?_⟩, ⟨zfill_length_ge 2 p1, ?_⟩, ⟨hyear.2, ?_⟩,
        ⟨by omega, by omega, by simpa using hcvv.2.2⟩, rfl⟩
      · rw [List.all_eq_true]
        intro a ha
        exact (List.mem_filter.mp ha).2
      · rw [hm]
        exact ⟨hmrange.1, hmrange.2⟩
      · refine pyInt?_year_digits _ y hy hyear.2 ?_
        have h1 : (current_year : ℤ) ≤ y := hyear.1
        omega

/-- Counterexample to C4 as stated: the raw input
`"4111111111111111|0_12|2030|123"` parses successfully (Python's `int`
accepts an underscore between digits, giving month value 12), but the
stored `month` field `"0_12"` has length 4, not 2, and is not
numeric-only. -/
theorem validate_card_format_invariants_cex :
    validate_card_format 2026 ("4111111111111111|0_12|2030|123".data)
        = .ok { card_number := "4111111111111111".data, month := "0_12".data,
                year := "2030".data, cvv := "123".data,
                original := "4111111111111111|0_12|2030|123".data }
    ∧ ("0_12".data).length ≠ 2
    ∧ ("0_12".data).all isDig = false := by decide

theorem validate_card_format_invariants_witness :
    1000 ≤ 2026
    ∧ validate_card_format 2026 ("4111111111111111|12|2030|123".data)
        = .ok sampleRecord
    ∧ ((13 ≤ sampleRecord.card_number.length
        ∧ sampleRecord.card_number.length ≤ 19
        ∧ sampleRecord.card_number.all isDig = true)
      ∧ (2 ≤ sampleRecord.month.length ∧ inMonthRange (pyInt? sampleRecord.month))
      ∧ (sampleRecord.year.length = 4 ∧ sampleRecord.year.all isDig = true)
      ∧ (3 ≤ sampleRecord.cvv.length ∧ sampleRecord.cvv.length ≤ 4
        ∧ sampleRecord.cvv.all isDig = true)
      ∧ sampleRecord.original = "4111111111111111|12|2030|123".data) :=
  ⟨by norm_num, by decide,
   validate_card_format_invariants 2026 ("4111111111111111|12|2030|123".data)
     sampleRecord (by norm_num) (by decide)⟩
